import Mathlib

/-!
Verification of the link-record management module of the golink repository
(`internal/link/link.go`) against its specification.

The module is embedded shallowly:
* the SQLite table `links (name, url)` becomes a list of `(name, url)` rows,
  mutated by list operations mirroring each SQL statement the code issues;
* the Go standard library `net/url` is an external collaborator, so the
  embedding is parameterized over a `URLModel` (a parse function and a
  serialization function standing for `url.Parse` and `(*url.URL).String`);
  a concrete executable model of the relevant `net/url` fragment
  (`goNetURL`) instantiates it for concrete runs;
* each operation (`Create`, `Read`, `Update`, `Delete`, `linkByName`,
  `ValidLinkName`) is translated statement by statement from the Go source;
  fallible operations return `Except LinkErr`.
-/

namespace GoLink

/-- Errors of the link module: `ErrAlreadyExists`, `ErrInvalidLinkName`,
`ErrNotFound`, `ErrUnparseableAddress`, plus `storage` standing for any
wrapped database/lookup failure (`fmt.Errorf(..., %w)`). -/
inductive LinkErr where
  | alreadyExists
  | invalidLinkName
  | notFound
  | unparseableAddress
  | storage
  deriving DecidableEq

/-- `const BlockChars = "/<>"` from link.go. -/
def BlockChars : String := "/<>"

/-- Go's `unicode.IsSpace`: the Unicode White_Space property, i.e. the
Latin-1 cases '\t','\n','\v','\f','\r',' ',U+0085,U+00A0 together with the
`White_Space` range table (U+1680, U+2000..U+200A, U+2028, U+2029, U+202F,
U+205F, U+3000). -/
def isSpaceGo (c : Char) : Bool :=
  let n := c.toNat
  (0x9 ≤ n && n ≤ 0xD) || n == 0x20 || n == 0x85 || n == 0xA0 ||
  n == 0x1680 || (0x2000 ≤ n && n ≤ 0x200A) ||
  n == 0x2028 || n == 0x2029 || n == 0x202F || n == 0x205F || n == 0x3000

/-- `ValidLinkName` from link.go: the `for _, c := range name` loop returns
false on any whitespace rune; otherwise the result is
`name != "" && !strings.ContainsAny(name, BlockChars)`
(`ContainsAny` tests whether any rune of `name` is among the runes of
`BlockChars`). -/
def ValidLinkName (name : String) : Bool :=
  !(name.data.any isSpaceGo) &&
    (name != "" && !(name.data.any fun c => BlockChars.data.contains c))

/-- The abstract interface the link module uses from `net/url`:
`parse` stands for `url.Parse` (`none` = parse error) and `render` for
`(*url.URL).String`. -/
structure URLModel where
  URL : Type
  parse : String → Option URL
  render : URL → String

/-- The database table `links (name, url)` as a list of rows, in insertion
order. -/
abbrev Db := List (String × String)

/-- A `Record` from link.go: a name together with the parsed URL. -/
structure Record (M : URLModel) where
  name : String
  link : M.URL

/-- `select (url) from links where name=?` returning the first matching
row, as `QueryRowContext` does. -/
def findRow : Db → String → Option (String × String)
  | [], _ => none
  | r :: rest, name => if r.1 == name then some r else findRow rest name

/-- `linkByName` from link.go: query the row for `name`; no row is the
`sql.ErrNoRows` case `(nil, false, nil)`; otherwise `url.Parse` the stored
string, a parse failure becoming a wrapped error, and build
`&Record{name, u}`. -/
def linkByName (M : URLModel) (db : Db) (name : String) :
    Except LinkErr (Option (Record M)) :=
  match findRow db name with
  | none => .ok none
  | some (_, link) =>
    match M.parse link with
    | none => .error .storage
    | some u => .ok (some ⟨name, u⟩)

/-- `Create` from link.go: validate the name, parse the address, fail with
`ErrAlreadyExists` when a row for `name` exists, else
`insert into links (name, url) values (?, ?)` with `u.String()` as the
stored url. -/
def Create (M : URLModel) (db : Db) (name address : String) :
    Except LinkErr Db :=
  if !ValidLinkName name then .error .invalidLinkName
  else match M.parse address with
  | none => .error .unparseableAddress
  | some u =>
    match linkByName M db name with
    | .error e => .error e
    | .ok (some _) => .error .alreadyExists
    | .ok none => .ok (db ++ [(name, M.render u)])

/-- `Read` from link.go: validate the name, look the row up, `ErrNotFound`
when absent. -/
def Read (M : URLModel) (db : Db) (name : String) :
    Except LinkErr (Record M) :=
  if !ValidLinkName name then .error .invalidLinkName
  else match linkByName M db name with
  | .error _ => .error .storage
  | .ok none => .error .notFound
  | .ok (some r) => .ok r

/-- `Update` from link.go: validate `newName`, parse `address` (the parsed
value is discarded), `ErrNotFound` when `oldName` has no row,
`ErrAlreadyExists` when `newName` has a row, else
`update links set name = ?, url = ? where name = ?` storing the raw
`address` string. -/
def Update (M : URLModel) (db : Db) (oldName newName address : String) :
    Except LinkErr Db :=
  if !ValidLinkName newName then .error .invalidLinkName
  else match M.parse address with
  | none => .error .unparseableAddress
  | some _ =>
    match linkByName M db oldName with
    | .error _ => .error .storage
    | .ok none => .error .notFound
    | .ok (some _) =>
      match linkByName M db newName with
      | .error _ => .error .storage
      | .ok (some _) => .error .alreadyExists
      | .ok none =>
        .ok (db.map fun r => if r.1 == oldName then (newName, address) else r)

/-- `Delete` from link.go: look the row up (no name validation),
`ErrNotFound` when absent, else `delete from links where name=?`. -/
def Delete (M : URLModel) (db : Db) (name : String) : Except LinkErr Db :=
  match linkByName M db name with
  | .error _ => .error .storage
  | .ok none => .error .notFound
  | .ok (some _) => .ok (db.filter fun r => !(r.1 == name))

/-- The table state after an operation: the new rows on success, the old
rows when the operation returned an error before (or instead of) writing. -/
def applyOp (db : Db) (result : Except LinkErr Db) : Db :=
  match result with
  | .ok db2 => db2
  | .error _ => db

end GoLink

namespace GoNetURL

/-- Modelled from the Go standard library `net/url` (an external
collaborator of this repository): the fragment of `url.Parse` and
`(*url.URL).String` that the concrete runs below exercise. A URL is kept
as the lower-cased scheme produced by `getScheme` plus the verbatim
remainder; this is faithful to `net/url` for URLs, such as the ones used
below, whose remainder `net/url` re-serializes verbatim (no fragment, no
percent-escapes, no userinfo rewriting). -/
structure SimpleURL where
  scheme : String
  rest : String
  deriving DecidableEq

/-- `stringContainsCTLByte` from net/url: `Parse` rejects URLs containing
an ASCII control character. -/
def containsCTL (s : String) : Bool :=
  s.data.any fun c => c.toNat < 0x20 || c.toNat == 0x7F

/-- The loop of `getScheme` from net/url: scan for a `:` ending a run of
scheme characters; a leading `:` is an error; a digit/`+`/`-`/`.` first or
any other character means no scheme. `raw` is the whole input, `i` the
index of the head of the remaining list. -/
def getSchemeLoop (raw : List Char) : List Char → Nat →
    Option (List Char × List Char)
  | [], _ => some ([], raw)
  | c :: cs, i =>
    if (('a' ≤ c) && (c ≤ 'z')) || (('A' ≤ c) && (c ≤ 'Z')) then
      getSchemeLoop raw cs (i + 1)
    else if (('0' ≤ c) && (c ≤ '9')) || c == '+' || c == '-' || c == '.' then
      if i == 0 then some ([], raw) else getSchemeLoop raw cs (i + 1)
    else if c == ':' then
      if i == 0 then none else some (raw.take i, raw.drop (i + 1))
    else some ([], raw)

/-- `url.Parse` restricted to the modelled fragment: reject control
characters, split the scheme off with `getScheme`, and lower-case it as
`Parse` does. -/
def parse (s : String) : Option SimpleURL :=
  if containsCTL s then none
  else match getSchemeLoop s.data s.data 0 with
  | none => none
  | some (sch, rest) => some ⟨String.mk (sch.map Char.toLower), String.mk rest⟩

/-- `(*url.URL).String` restricted to the modelled fragment: scheme,
colon, remainder. -/
def render (u : SimpleURL) : String :=
  if u.scheme == "" then u.rest else u.scheme ++ ":" ++ u.rest

/-- The `URLModel` instance used for concrete runs. -/
def M : GoLink.URLModel := ⟨SimpleURL, parse, render⟩

end GoNetURL

namespace GoLink

/-- Every stored name satisfies `ValidLinkName`. -/
def NamesValid (db : Db) : Prop := ∀ r ∈ db, ValidLinkName r.1 = true

/-- Every stored url string parses. -/
def AddrsParse (M : URLModel) (db : Db) : Prop :=
  ∀ r ∈ db, (M.parse r.2).isSome = true

/-- The data-model invariant: names valid, names unique, addresses
parseable. -/
def Inv (M : URLModel) (db : Db) : Prop :=
  NamesValid db ∧ (db.map Prod.fst).Nodup ∧ AddrsParse M db

theorem findRow_eq_none_iff (db : Db) (name : String) :
    findRow db name = none ↔ ∀ r ∈ db, r.1 ≠ name := by
  induction db with
  | nil => simp [findRow]
  | cons r rest ih =>
    unfold findRow
    by_cases h : r.1 = name
    · simp [h]
    · have hb : (r.1 == name) = false := by simpa using h
      simp [hb, ih, h]

theorem findRow_mem (db : Db) (name : String) (r : String × String)
    (h : findRow db name = some r) : r ∈ db ∧ r.1 = name := by
  induction db with
  | nil => simp [findRow] at h
  | cons s rest ih =>
    unfold findRow at h
    by_cases hs : s.1 = name
    · have hb : (s.1 == name) = true := by simpa using hs
      rw [hb] at h
      simp at h
      subst h
      exact ⟨List.mem_cons_self s rest, hs⟩
    · have hb : (s.1 == name) = false := by simpa using hs
      rw [hb] at h
      simp at h
      obtain ⟨hmem, hname⟩ := ih h
      exact ⟨List.mem_cons_of_mem s hmem, hname⟩

theorem findRow_append_of_none (db l : Db) (name : String)
    (h : findRow db name = none) :
    findRow (db ++ l) name = findRow l name := by
  induction db with
  | nil => simp
  | cons r rest ih =>
    simp only [List.cons_append, findRow] at h ⊢
    by_cases hr : (r.1 == name) = true
    · rw [hr] at h; simp at h
    · have hb : (r.1 == name) = false := by simpa using hr
      simp only [hb, Bool.false_eq_true, if_false] at h ⊢
      exact ih h

theorem findRow_filter_ne (db : Db) (name : String) :
    findRow (db.filter fun r => !(r.1 == name)) name = none := by
  induction db with
  | nil => simp [findRow]
  | cons r rest ih =>
    by_cases hr : (r.1 == name) = true
    · simp [List.filter, hr, ih]
    · have hb : (r.1 == name) = false := by simpa using hr
      simp [List.filter, hb, findRow, ih]

theorem linkByName_of_none (M : URLModel) (db : Db) (name : String)
    (h : findRow db name = none) : linkByName M db name = .ok none := by
  unfold linkByName
  rw [h]

theorem linkByName_ok_none_iff (M : URLModel) (db : Db) (name : String) :
    linkByName M db name = .ok none ↔ findRow db name = none := by
  unfold linkByName
  cases h : findRow db name with
  | none => simp
  | some r =>
    obtain ⟨a, b⟩ := r
    cases hp : M.parse b <;> simp [hp]

theorem linkByName_of_some (M : URLModel) (db : Db) (name a link : String)
    (u : M.URL) (h : findRow db name = some (a, link))
    (hp : M.parse link = some u) :
    linkByName M db name = .ok (some ⟨name, u⟩) := by
  unfold linkByName
  rw [h]
  simp only [hp]

theorem linkByName_some_of_addrs (M : URLModel) (db : Db) (name a link : String)
    (haddrs : AddrsParse M db) (h : findRow db name = some (a, link)) :
    ∃ u, M.parse link = some u ∧ linkByName M db name = .ok (some ⟨name, u⟩) := by
  obtain ⟨hmem, _⟩ := findRow_mem db name (a, link) h
  have hp := haddrs (a, link) hmem
  cases hu : M.parse link with
  | none => rw [hu] at hp; simp at hp
  | some u => exact ⟨u, rfl, linkByName_of_some M db name a link u h hu⟩

theorem Create_ok (M : URLModel) (db : Db) (name address : String) (u : M.URL)
    (hname : ValidLinkName name = true)
    (hparse : M.parse address = some u)
    (habsent : findRow db name = none) :
    Create M db name address = .ok (db ++ [(name, M.render u)]) := by
  unfold Create
  rw [hname, hparse, linkByName_of_none M db name habsent]
  rfl

theorem Create_invalid (M : URLModel) (db : Db) (name address : String)
    (hname : ValidLinkName name = false) :
    Create M db name address = .error .invalidLinkName := by
  unfold Create
  rw [hname]
  rfl

theorem Read_invalid (M : URLModel) (db : Db) (name : String)
    (hname : ValidLinkName name = false) :
    Read M db name = .error .invalidLinkName := by
  unfold Read
  rw [hname]
  rfl

theorem Read_notFound (M : URLModel) (db : Db) (name : String)
    (hname : ValidLinkName name = true)
    (habsent : findRow db name = none) :
    Read M db name = .error .notFound := by
  unfold Read
  rw [hname, linkByName_of_none M db name habsent]
  rfl

theorem Read_found (M : URLModel) (db : Db) (name a link : String) (u : M.URL)
    (hname : ValidLinkName name = true)
    (hrow : findRow db name = some (a, link))
    (hp : M.parse link = some u) :
    Read M db name = .ok ⟨name, u⟩ := by
  unfold Read
  rw [hname, linkByName_of_some M db name a link u hrow hp]
  rfl

theorem Delete_notFound (M : URLModel) (db : Db) (name : String)
    (habsent : findRow db name = none) :
    Delete M db name = .error .notFound := by
  unfold Delete
  rw [linkByName_of_none M db name habsent]

theorem Delete_found (M : URLModel) (db : Db) (name a link : String) (u : M.URL)
    (hrow : findRow db name = some (a, link))
    (hp : M.parse link = some u) :
    Delete M db name = .ok (db.filter fun r => !(r.1 == name)) := by
  unfold Delete
  rw [linkByName_of_some M db name a link u hrow hp]

theorem Update_ok (M : URLModel) (db : Db)
    (oldName newName address : String) (u : M.URL) (rec : Record M)
    (hvalid : ValidLinkName newName = true)
    (hparse : M.parse address = some u)
    (hold : linkByName M db oldName = .ok (some rec))
    (hnew : findRow db newName = none) :
    Update M db oldName newName address =
      .ok (db.map fun r => if r.1 == oldName then (newName, address) else r) := by
  unfold Update
  rw [hvalid, hparse, hold, linkByName_of_none M db newName hnew]
  rfl

theorem Create_unparseable (M : URLModel) (db : Db) (name address : String)
    (hname : ValidLinkName name = true)
    (hparse : M.parse address = none) :
    Create M db name address = .error .unparseableAddress := by
  unfold Create
  rw [hname, hparse]
  rfl

theorem Create_exists (M : URLModel) (db : Db) (name address : String)
    (u : M.URL) (rec : Record M)
    (hname : ValidLinkName name = true)
    (hparse : M.parse address = some u)
    (hfound : linkByName M db name = .ok (some rec)) :
    Create M db name address = .error .alreadyExists := by
  unfold Create
  rw [hname, hparse, hfound]
  rfl

theorem Update_invalid (M : URLModel) (db : Db)
    (oldName newName address : String)
    (hvalid : ValidLinkName newName = false) :
    Update M db oldName newName address = .error .invalidLinkName := by
  unfold Update
  rw [hvalid]
  rfl

theorem Update_unparseable (M : URLModel) (db : Db)
    (oldName newName address : String)
    (hvalid : ValidLinkName newName = true)
    (hparse : M.parse address = none) :
    Update M db oldName newName address = .error .unparseableAddress := by
  unfold Update
  rw [hvalid, hparse]
  rfl

theorem Update_notFound (M : URLModel) (db : Db)
    (oldName newName address : String) (u : M.URL)
    (hvalid : ValidLinkName newName = true)
    (hparse : M.parse address = some u)
    (hold : findRow db oldName = none) :
    Update M db oldName newName address = .error .notFound := by
  unfold Update
  rw [hvalid, hparse, linkByName_of_none M db oldName hold]
  rfl

theorem Update_exists (M : URLModel) (db : Db)
    (oldName newName address : String) (u : M.URL) (rec1 rec2 : Record M)
    (hvalid : ValidLinkName newName = true)
    (hparse : M.parse address = some u)
    (hold : linkByName M db oldName = .ok (some rec1))
    (hnew : linkByName M db newName = .ok (some rec2)) :
    Update M db oldName newName address = .error .alreadyExists := by
  unfold Update
  rw [hvalid, hparse, hold, hnew]
  rfl

theorem applyOp_error (db : Db) (e : LinkErr) : applyOp db (.error e) = db := rfl

theorem applyOp_ok (db db2 : Db) : applyOp db (.ok db2) = db2 := rfl

theorem findRow_map_rename_old (db : Db) (oldName newName address : String)
    (hne : newName ≠ oldName) :
    findRow (db.map fun r => if r.1 == oldName then (newName, address) else r)
      oldName = none := by
  induction db with
  | nil => simp [findRow]
  | cons r rest ih =>
    simp only [List.map_cons, findRow]
    by_cases h : r.1 = oldName
    · simpa [h, hne] using ih
    · simpa [h] using ih

theorem findRow_map_rename_new (db : Db) (oldName newName address : String)
    (r0 : String × String)
    (hnew : findRow db newName = none)
    (hold : findRow db oldName = some r0) :
    findRow (db.map fun r => if r.1 == oldName then (newName, address) else r)
      newName = some (newName, address) := by
  induction db with
  | nil => simp [findRow] at hold
  | cons r rest ih =>
    by_cases hn : r.1 = newName
    · simp [findRow, hn] at hnew
    · by_cases h : r.1 = oldName
      · simp [List.map_cons, findRow, h]
      · have hnew2 : findRow rest newName = none := by
          simpa [findRow, hn] using hnew
        have hold2 : findRow rest oldName = some r0 := by
          simpa [findRow, h] using hold
        simpa [List.map_cons, findRow, h, hn] using ih hnew2 hold2

theorem rename_names (db : Db) (oldName newName address : String) :
    (db.map fun r => if r.1 == oldName then (newName, address) else r).map
        Prod.fst =
      db.map fun r => if r.1 == oldName then newName else r.1 := by
  induction db with
  | nil => rfl
  | cons r rest ih =>
    simp only [List.map_cons, ih]
    by_cases h : r.1 = oldName <;> simp [h]

theorem nodup_rename (names : List String) (oldName newName : String)
    (hnd : names.Nodup) (hnew : newName ∉ names) :
    (names.map fun n => if n == oldName then newName else n).Nodup := by
  induction names with
  | nil => simp
  | cons n ns ih =>
    rw [List.nodup_cons] at hnd
    obtain ⟨hn, hns⟩ := hnd
    have hnewn : newName ≠ n := fun h => hnew (h ▸ List.mem_cons_self n ns)
    have hnewns : newName ∉ ns := fun h => hnew (List.mem_cons_of_mem n h)
    simp only [List.map_cons, List.nodup_cons]
    refine ⟨?_, ih hns hnewns⟩
    intro hmem
    obtain ⟨m, hm, hfm⟩ := List.mem_map.mp hmem
    by_cases hcn : n = oldName
    · by_cases hcm : m = oldName
      · exact hn ((hcm.trans hcn.symm) ▸ hm)
      · simp [hcn, hcm] at hfm
        exact hnewns (hfm ▸ hm)
    · by_cases hcm : m = oldName
      · simp [hcn, hcm] at hfm
        exact hnewn hfm
      · simp [hcn, hcm] at hfm
        exact hn (hfm ▸ hm)

theorem findRow_none_of_invalid (db : Db) (name : String)
    (hnames : NamesValid db) (hinvalid : ValidLinkName name = false) :
    findRow db name = none := by
  rw [findRow_eq_none_iff]
  intro r hr heq
  have := hnames r hr
  rw [heq, hinvalid] at this
  exact Bool.false_ne_true this

end GoLink

namespace GoLink

theorem ValidLinkName_false_of_bad (name : String)
    (hbad : name = "" ∨ ' ' ∈ name.data ∨ '/' ∈ name.data ∨ '<' ∈ name.data ∨
      '>' ∈ name.data) :
    ValidLinkName name = false := by
  rcases hbad with h | h | h | h | h
  · subst h; rfl
  · unfold ValidLinkName
    have ha : name.data.any isSpaceGo = true :=
      List.any_eq_true.mpr ⟨' ', h, by decide⟩
    rw [ha]; rfl
  · unfold ValidLinkName
    have ha : (name.data.any fun c => BlockChars.data.contains c) = true :=
      List.any_eq_true.mpr ⟨'/', h, by decide⟩
    rw [ha]; simp
  · unfold ValidLinkName
    have ha : (name.data.any fun c => BlockChars.data.contains c) = true :=
      List.any_eq_true.mpr ⟨'<', h, by decide⟩
    rw [ha]; simp
  · unfold ValidLinkName
    have ha : (name.data.any fun c => BlockChars.data.contains c) = true :=
      List.any_eq_true.mpr ⟨'>', h, by decide⟩
    rw [ha]; simp

/-- C3: `ValidLinkName name` returns true iff `name` is non-empty, contains
no Unicode whitespace character (Go's `unicode.IsSpace` table), and
contains none of the characters '/', '<', '>'. -/
theorem c3_valid_name_iff (name : String) :
    ValidLinkName name = true ↔
      (name ≠ "" ∧ (∀ c ∈ name.data, isSpaceGo c = false) ∧
        ∀ c ∈ name.data, c ≠ '/' ∧ c ≠ '<' ∧ c ≠ '>') := by
  have hbc : BlockChars.data = ['/', '<', '>'] := rfl
  constructor
  · intro h
    unfold ValidLinkName at h
    simp only [Bool.and_eq_true, Bool.not_eq_true', bne_iff_ne] at h
    obtain ⟨h1, ⟨h2, h3⟩⟩ := h
    rw [List.any_eq_false] at h1 h3
    refine ⟨h2, fun c hc => by simpa using h1 c hc, fun c hc => ?_⟩
    have hin := h3 c hc
    rw [hbc] at hin
    simpa [not_or] using hin
  · intro ⟨h1, h2, h3⟩
    unfold ValidLinkName
    simp only [Bool.and_eq_true, Bool.not_eq_true', bne_iff_ne]
    refine ⟨?_, h1, ?_⟩
    · rw [List.any_eq_false]
      exact fun c hc => by simpa using h2 c hc
    · rw [List.any_eq_false]
      intro c hc
      rw [hbc]
      simpa [not_or] using h3 c hc

/-- C5: for every name that is the empty string or contains a space or one
of '/', '<', '>', and every address, Create fails with InvalidName and the
table is unchanged — validation happens before any write. -/
theorem c5_create_invalid_name (M : URLModel) (db : Db) (name address : String)
    (hbad : name = "" ∨ ' ' ∈ name.data ∨ '/' ∈ name.data ∨ '<' ∈ name.data ∨
      '>' ∈ name.data) :
    Create M db name address = .error .invalidLinkName ∧
    applyOp db (Create M db name address) = db := by
  have hinv := ValidLinkName_false_of_bad name hbad
  have h1 := Create_invalid M db name address hinv
  exact ⟨h1, by rw [h1]; rfl⟩

/-- Witness for C5 at name "a b" (contains a space) over the empty table. -/
theorem c5_create_invalid_name_witness :
    ("a b" = "" ∨ ' ' ∈ "a b".data ∨ '/' ∈ "a b".data ∨ '<' ∈ "a b".data ∨
      '>' ∈ "a b".data) ∧
    (Create GoNetURL.M [] "a b" "http://x.com" = .error .invalidLinkName ∧
      applyOp [] (Create GoNetURL.M [] "a b" "http://x.com") = []) :=
  ⟨by decide, c5_create_invalid_name GoNetURL.M [] "a b" "http://x.com" (by decide)⟩

/-- C10: Delete performs no name-validity check: for an invalid name, over
a table whose stored names are all valid, Delete returns NotFound — never
InvalidName — and leaves the table unchanged, while Read, Create and
Update reject the same name with InvalidName. -/
theorem c10_delete_skips_validation (M : URLModel) (db : Db) (name : String)
    (hinvalid : ValidLinkName name = false)
    (hnames : NamesValid db) :
    Delete M db name = .error .notFound ∧
    Delete M db name ≠ .error .invalidLinkName ∧
    applyOp db (Delete M db name) = db ∧
    Read M db name = .error .invalidLinkName ∧
    (∀ address, Create M db name address = .error .invalidLinkName) ∧
    (∀ oldName address,
      Update M db oldName name address = .error .invalidLinkName) := by
  have habsent := findRow_none_of_invalid db name hnames hinvalid
  have h1 := Delete_notFound M db name habsent
  refine ⟨h1, ?_, ?_, Read_invalid M db name hinvalid,
    fun address => Create_invalid M db name address hinvalid,
    fun oldName address => Update_invalid M db oldName name address hinvalid⟩
  · rw [h1]; simp
  · rw [h1]; rfl

/-- Witness for C10 at the invalid name "a b" over a one-row table. -/
theorem c10_delete_skips_validation_witness :
    ValidLinkName "a b" = false ∧ NamesValid [("foo", "http://x.com")] ∧
    (Delete GoNetURL.M [("foo", "http://x.com")] "a b" = .error .notFound ∧
      Delete GoNetURL.M [("foo", "http://x.com")] "a b" ≠
        .error .invalidLinkName ∧
      applyOp [("foo", "http://x.com")]
        (Delete GoNetURL.M [("foo", "http://x.com")] "a b") =
        [("foo", "http://x.com")] ∧
      Read GoNetURL.M [("foo", "http://x.com")] "a b" =
        .error .invalidLinkName ∧
      (∀ address, Create GoNetURL.M [("foo", "http://x.com")] "a b" address =
        .error .invalidLinkName) ∧
      (∀ oldName address,
        Update GoNetURL.M [("foo", "http://x.com")] oldName "a b" address =
          .error .invalidLinkName)) :=
  ⟨by decide, by unfold NamesValid; decide,
    c10_delete_skips_validation GoNetURL.M [("foo", "http://x.com")] "a b"
      (by decide) (by unfold NamesValid; decide)⟩

end GoLink
namespace GoLink

/-- Counterexample to C1 as stated: "g" is a valid name and
"HTTP://x.com" a parseable address, yet Create("g","HTTP://x.com") on the
empty table persists the re-serialized form "http://x.com" (the scheme is
lower-cased by url.Parse), so the record returned by Read("g") carries the
address string "http://x.com", different from the address passed to
Create. -/
theorem c1_counterexample :
    ValidLinkName "g" = true ∧
    (GoNetURL.M.parse "HTTP://x.com").isSome = true ∧
    Create GoNetURL.M [] "g" "HTTP://x.com" = .ok [("g", "http://x.com")] ∧
    Read GoNetURL.M [("g", "http://x.com")] "g" =
      .ok ⟨"g", (⟨"http", "//x.com"⟩ : GoNetURL.SimpleURL)⟩ ∧
    GoNetURL.M.render (⟨"http", "//x.com"⟩ : GoNetURL.SimpleURL) =
      "http://x.com" ∧
    "http://x.com" ≠ "HTTP://x.com" :=
  ⟨by decide, rfl, rfl, rfl, rfl, by decide⟩

/-- C1 (amended): for a valid name and a parseable address not yet in the
table, Create persists the row (name, render (parse address)) — the
re-serialization of the parsed address, not necessarily the raw address
string — and Read(name) then returns a record whose name equals name and
whose link is the parse of that stored string; the read-back address
equals the address passed to Create exactly when the address is fixed by
parse-then-serialize. -/
theorem c1_create_then_read (M : URLModel) (db : Db) (name address : String)
    (u u2 : M.URL)
    (hname : ValidLinkName name = true)
    (hparse : M.parse address = some u)
    (habsent : findRow db name = none)
    (hrt : M.parse (M.render u) = some u2) :
    Create M db name address = .ok (db ++ [(name, M.render u)]) ∧
    Read M (db ++ [(name, M.render u)]) name = .ok ⟨name, u2⟩ := by
  refine ⟨Create_ok M db name address u hname hparse habsent, ?_⟩
  have hfr : findRow (db ++ [(name, M.render u)]) name =
      some (name, M.render u) := by
    rw [findRow_append_of_none db _ name habsent]
    simp [findRow]
  exact Read_found M _ name name (M.render u) u2 hname hfr hrt

/-- Witness for C1 (amended) at name "g" and the canonical address
"http://x.com" over the empty table. -/
theorem c1_create_then_read_witness :
    ValidLinkName "g" = true ∧
    GoNetURL.M.parse "http://x.com" =
      some (⟨"http", "//x.com"⟩ : GoNetURL.SimpleURL) ∧
    findRow [] "g" = none ∧
    GoNetURL.M.parse
        (GoNetURL.M.render (⟨"http", "//x.com"⟩ : GoNetURL.SimpleURL)) =
      some (⟨"http", "//x.com"⟩ : GoNetURL.SimpleURL) ∧
    (Create GoNetURL.M [] "g" "http://x.com" =
        .ok ([] ++ [("g",
          GoNetURL.M.render (⟨"http", "//x.com"⟩ : GoNetURL.SimpleURL))]) ∧
      Read GoNetURL.M
          ([] ++ [("g",
            GoNetURL.M.render (⟨"http", "//x.com"⟩ : GoNetURL.SimpleURL))])
          "g" =
        .ok ⟨"g", (⟨"http", "//x.com"⟩ : GoNetURL.SimpleURL)⟩) :=
  ⟨by decide, rfl, rfl, rfl,
    c1_create_then_read GoNetURL.M [] "g" "http://x.com" _ _
      (by decide) rfl rfl rfl⟩

/-- Counterexample to C2 as stated: in the table holding only the record
("foo","http://x.com") no record distinct from oldName's exists under the
new name "foo", yet the retarget Update("foo","foo","http://y.com") fails
with AlreadyExists, because Update's pre-check looks the new name up
without excluding the record being updated. -/
theorem c2_counterexample :
    ValidLinkName "foo" = true ∧
    (GoNetURL.M.parse "http://y.com").isSome = true ∧
    findRow [("foo", "http://x.com")] "foo" = some ("foo", "http://x.com") ∧
    (∀ r ∈ [("foo", "http://x.com")], r = ("foo", "http://x.com")) ∧
    Update GoNetURL.M [("foo", "http://x.com")] "foo" "foo" "http://y.com" =
      .error .alreadyExists :=
  ⟨by decide, rfl, rfl, by decide, rfl⟩

/-- C2 (amended): under the claim's conditions (newName valid, address
parseable, a record exists for oldName, stored addresses parseable),
Update fails with AlreadyExists iff ANY record exists under newName —
including oldName's own record; in particular an Update with newName equal
to oldName fails with AlreadyExists rather than retargeting in place. -/
theorem c2_update_already_exists_iff (M : URLModel) (db : Db)
    (oldName newName address : String)
    (hvalid : ValidLinkName newName = true)
    (hparse : (M.parse address).isSome = true)
    (haddrs : AddrsParse M db)
    (hold : findRow db oldName ≠ none) :
    Update M db oldName newName address = .error .alreadyExists ↔
      findRow db newName ≠ none := by
  obtain ⟨u, hu⟩ := Option.isSome_iff_exists.mp hparse
  obtain ⟨r0, hr0⟩ := Option.ne_none_iff_exists'.mp hold
  obtain ⟨uo, hpo, hlbno⟩ :=
    linkByName_some_of_addrs M db oldName r0.1 r0.2 haddrs (by
      simpa using hr0)
  cases hnew : findRow db newName with
  | none =>
    constructor
    · intro hcontra
      rw [Update_ok M db oldName newName address u ⟨oldName, uo⟩ hvalid hu
        hlbno hnew] at hcontra
      exact absurd hcontra (by simp)
    · intro h2; exact absurd rfl h2
  | some r1 =>
    obtain ⟨un, hpn, hlbnn⟩ :=
      linkByName_some_of_addrs M db newName r1.1 r1.2 haddrs (by
        simpa using hnew)
    constructor
    · intro _; simp
    · intro _
      exact Update_exists M db oldName newName address u ⟨oldName, uo⟩
        ⟨newName, un⟩ hvalid hu hlbno hlbnn

/-- Witness for C2 (amended) at the counterexample table: the retarget
Update("foo","foo","http://y.com") fails with AlreadyExists because a row
named "foo" exists. -/
theorem c2_update_already_exists_iff_witness :
    ValidLinkName "foo" = true ∧
    (GoNetURL.M.parse "http://y.com").isSome = true ∧
    AddrsParse GoNetURL.M [("foo", "http://x.com")] ∧
    findRow [("foo", "http://x.com")] "foo" ≠ none ∧
    (Update GoNetURL.M [("foo", "http://x.com")] "foo" "foo" "http://y.com" =
        .error .alreadyExists ↔
      findRow [("foo", "http://x.com")] "foo" ≠ none) :=
  ⟨by decide, rfl, by unfold AddrsParse; decide, by decide,
    c2_update_already_exists_iff GoNetURL.M [("foo", "http://x.com")]
      "foo" "foo" "http://y.com" (by decide) rfl
      (by unfold AddrsParse; decide) (by decide)⟩

end GoLink
namespace GoLink

/-- C4: calling Create twice with the same valid name and parseable
address succeeds the first time (persisting the canonical row) and fails
with AlreadyExists the second time, the table — and so the stored record
for the name — being unchanged by the second call. -/
theorem c4_create_twice (M : URLModel) (db : Db) (name address : String)
    (u u2 : M.URL)
    (hname : ValidLinkName name = true)
    (hparse : M.parse address = some u)
    (habsent : findRow db name = none)
    (hrt : M.parse (M.render u) = some u2) :
    Create M db name address = .ok (db ++ [(name, M.render u)]) ∧
    Create M (db ++ [(name, M.render u)]) name address =
      .error .alreadyExists ∧
    applyOp (db ++ [(name, M.render u)])
        (Create M (db ++ [(name, M.render u)]) name address) =
      db ++ [(name, M.render u)] := by
  have h1 := Create_ok M db name address u hname hparse habsent
  have hfr : findRow (db ++ [(name, M.render u)]) name =
      some (name, M.render u) := by
    rw [findRow_append_of_none db _ name habsent]
    simp [findRow]
  have hlbn := linkByName_of_some M _ name name (M.render u) u2 hfr hrt
  have h2 := Create_exists M (db ++ [(name, M.render u)]) name address u
    ⟨name, u2⟩ hname hparse hlbn
  exact ⟨h1, h2, by rw [h2]; rfl⟩

/-- Witness for C4 at name "g", address "http://x.com", empty table. -/
theorem c4_create_twice_witness :
    ValidLinkName "g" = true ∧
    GoNetURL.M.parse "http://x.com" =
      some (⟨"http", "//x.com"⟩ : GoNetURL.SimpleURL) ∧
    findRow [] "g" = none ∧
    GoNetURL.M.parse
        (GoNetURL.M.render (⟨"http", "//x.com"⟩ : GoNetURL.SimpleURL)) =
      some (⟨"http", "//x.com"⟩ : GoNetURL.SimpleURL) ∧
    (Create GoNetURL.M [] "g" "http://x.com" =
        .ok ([] ++ [("g",
          GoNetURL.M.render (⟨"http", "//x.com"⟩ : GoNetURL.SimpleURL))]) ∧
      Create GoNetURL.M
          ([] ++ [("g",
            GoNetURL.M.render (⟨"http", "//x.com"⟩ : GoNetURL.SimpleURL))])
          "g" "http://x.com" = .error .alreadyExists ∧
      applyOp
          ([] ++ [("g",
            GoNetURL.M.render (⟨"http", "//x.com"⟩ : GoNetURL.SimpleURL))])
          (Create GoNetURL.M
            ([] ++ [("g",
              GoNetURL.M.render
                (⟨"http", "//x.com"⟩ : GoNetURL.SimpleURL))])
            "g" "http://x.com") =
        [] ++ [("g",
          GoNetURL.M.render (⟨"http", "//x.com"⟩ : GoNetURL.SimpleURL))]) :=
  ⟨by decide, rfl, rfl, rfl,
    c4_create_twice GoNetURL.M [] "g" "http://x.com" _ _
      (by decide) rfl rfl rfl⟩

/-- C6: a successful Update(oldName,newName,address) — oldName present,
newName valid and absent, address parseable — atomically replaces the old
row's name and address in place; afterward Read(oldName) fails with
NotFound and Read(newName) returns the record (newName, parse address). -/
theorem c6_update_rename (M : URLModel) (db : Db)
    (oldName newName address : String) (u : M.URL)
    (holdv : ValidLinkName oldName = true)
    (hvalid : ValidLinkName newName = true)
    (hparse : M.parse address = some u)
    (haddrs : AddrsParse M db)
    (hold : findRow db oldName ≠ none)
    (hnew : findRow db newName = none) :
    Update M db oldName newName address =
      .ok (db.map fun r => if r.1 == oldName then (newName, address) else r) ∧
    Read M (db.map fun r => if r.1 == oldName then (newName, address) else r)
      oldName = .error .notFound ∧
    Read M (db.map fun r => if r.1 == oldName then (newName, address) else r)
      newName = .ok ⟨newName, u⟩ := by
  obtain ⟨r0, hr0⟩ := Option.ne_none_iff_exists'.mp hold
  obtain ⟨uo, hpo, hlbno⟩ :=
    linkByName_some_of_addrs M db oldName r0.1 r0.2 haddrs (by simpa using hr0)
  have hne : newName ≠ oldName := by
    intro he; rw [he] at hnew; exact hold hnew
  refine ⟨Update_ok M db oldName newName address u ⟨oldName, uo⟩ hvalid hparse
    hlbno hnew, ?_, ?_⟩
  · exact Read_notFound M _ oldName holdv
      (findRow_map_rename_old db oldName newName address hne)
  · exact Read_found M _ newName newName address u hvalid
      (findRow_map_rename_new db oldName newName address r0 hnew hr0) hparse

/-- Witness for C6: the spec's scenario Update("foo","bar","http://x.com")
over the table holding only ("foo","http://a.com"). -/
theorem c6_update_rename_witness :
    ValidLinkName "foo" = true ∧
    ValidLinkName "bar" = true ∧
    GoNetURL.M.parse "http://x.com" =
      some (⟨"http", "//x.com"⟩ : GoNetURL.SimpleURL) ∧
    AddrsParse GoNetURL.M [("foo", "http://a.com")] ∧
    findRow [("foo", "http://a.com")] "foo" ≠ none ∧
    findRow [("foo", "http://a.com")] "bar" = none ∧
    (Update GoNetURL.M [("foo", "http://a.com")] "foo" "bar" "http://x.com" =
        .ok ([("foo", "http://a.com")].map fun r =>
          if r.1 == "foo" then ("bar", "http://x.com") else r) ∧
      Read GoNetURL.M
          ([("foo", "http://a.com")].map fun r =>
            if r.1 == "foo" then ("bar", "http://x.com") else r) "foo" =
        .error .notFound ∧
      Read GoNetURL.M
          ([("foo", "http://a.com")].map fun r =>
            if r.1 == "foo" then ("bar", "http://x.com") else r) "bar" =
        .ok ⟨"bar", (⟨"http", "//x.com"⟩ : GoNetURL.SimpleURL)⟩) :=
  ⟨by decide, by decide, rfl, by unfold AddrsParse; decide, by decide, rfl,
    c6_update_rename GoNetURL.M [("foo", "http://a.com")] "foo" "bar"
      "http://x.com" _ (by decide) (by decide) rfl
      (by unfold AddrsParse; decide) (by decide) rfl⟩

/-- C7: Delete(name) over a well-formed table fails with NotFound and
leaves the table unchanged when no record exists; when a record exists it
removes the row, and a subsequent Read(name) fails with NotFound. -/
theorem c7_delete_semantics (M : URLModel) (db : Db) (name : String)
    (hnames : NamesValid db)
    (haddrs : AddrsParse M db) :
    (findRow db name = none →
      Delete M db name = .error .notFound ∧
      applyOp db (Delete M db name) = db) ∧
    (findRow db name ≠ none →
      Delete M db name = .ok (db.filter fun r => !(r.1 == name)) ∧
      Read M (db.filter fun r => !(r.1 == name)) name = .error .notFound) := by
  constructor
  · intro habsent
    have h1 := Delete_notFound M db name habsent
    exact ⟨h1, by rw [h1]; rfl⟩
  · intro hpresent
    obtain ⟨r0, hr0⟩ := Option.ne_none_iff_exists'.mp hpresent
    obtain ⟨u, hp, hlbn⟩ :=
      linkByName_some_of_addrs M db name r0.1 r0.2 haddrs (by simpa using hr0)
    have hvalid : ValidLinkName name = true := by
      have hmem := (findRow_mem db name r0 hr0).1
      have hv := hnames r0 hmem
      rw [(findRow_mem db name r0 hr0).2] at hv
      exact hv
    refine ⟨Delete_found M db name r0.1 r0.2 u (by simpa using hr0) hp, ?_⟩
    exact Read_notFound M _ name hvalid (findRow_filter_ne db name)

/-- Witness for C7 at name "foo" over the table holding ("foo", ...). -/
theorem c7_delete_semantics_witness :
    NamesValid [("foo", "http://x.com")] ∧
    AddrsParse GoNetURL.M [("foo", "http://x.com")] ∧
    ((findRow [("foo", "http://x.com")] "foo" = none →
      Delete GoNetURL.M [("foo", "http://x.com")] "foo" = .error .notFound ∧
      applyOp [("foo", "http://x.com")]
        (Delete GoNetURL.M [("foo", "http://x.com")] "foo") =
        [("foo", "http://x.com")]) ∧
    (findRow [("foo", "http://x.com")] "foo" ≠ none →
      Delete GoNetURL.M [("foo", "http://x.com")] "foo" =
        .ok ([("foo", "http://x.com")].filter fun r => !(r.1 == "foo")) ∧
      Read GoNetURL.M
          ([("foo", "http://x.com")].filter fun r => !(r.1 == "foo")) "foo" =
        .error .notFound)) :=
  ⟨by unfold NamesValid; decide, by unfold AddrsParse; decide,
    c7_delete_semantics GoNetURL.M [("foo", "http://x.com")] "foo"
      (by unfold NamesValid; decide) (by unfold AddrsParse; decide)⟩

/-- C9: a successful Create stores the re-serialized parsed address
(render (parse address)) while a successful Update stores the raw address
string verbatim; for an address whose re-serialization differs from the
input the two operations therefore persist different strings for the same
input address. -/
theorem c9_create_canonical_update_raw (M : URLModel) (db : Db)
    (name oldName newName address : String) (u : M.URL)
    (hnameC : ValidLinkName name = true)
    (hparse : M.parse address = some u)
    (habsC : findRow db name = none)
    (hvalidN : ValidLinkName newName = true)
    (haddrs : AddrsParse M db)
    (holdU : findRow db oldName ≠ none)
    (hnewU : findRow db newName = none)
    (hdiff : M.render u ≠ address) :
    Create M db name address = .ok (db ++ [(name, M.render u)]) ∧
    Update M db oldName newName address =
      .ok (db.map fun r => if r.1 == oldName then (newName, address) else r) ∧
    findRow (db ++ [(name, M.render u)]) name = some (name, M.render u) ∧
    findRow (db.map fun r => if r.1 == oldName then (newName, address) else r)
      newName = some (newName, address) ∧
    M.render u ≠ address := by
  obtain ⟨r0, hr0⟩ := Option.ne_none_iff_exists'.mp holdU
  obtain ⟨uo, hpo, hlbno⟩ :=
    linkByName_some_of_addrs M db oldName r0.1 r0.2 haddrs (by simpa using hr0)
  refine ⟨Create_ok M db name address u hnameC hparse habsC,
    Update_ok M db oldName newName address u ⟨oldName, uo⟩ hvalidN hparse
      hlbno hnewU, ?_, findRow_map_rename_new db oldName newName address r0
      hnewU hr0, hdiff⟩
  rw [findRow_append_of_none db _ name habsC]
  simp [findRow]

/-- Witness for C9 at the non-canonical address "HTTP://x.com": Create on
name "g" stores "http://x.com" while Update("foo","bar") stores
"HTTP://x.com" verbatim. -/
theorem c9_create_canonical_update_raw_witness :
    ValidLinkName "g" = true ∧
    GoNetURL.M.parse "HTTP://x.com" =
      some (⟨"http", "//x.com"⟩ : GoNetURL.SimpleURL) ∧
    findRow [("foo", "http://a.com")] "g" = none ∧
    ValidLinkName "bar" = true ∧
    AddrsParse GoNetURL.M [("foo", "http://a.com")] ∧
    findRow [("foo", "http://a.com")] "foo" ≠ none ∧
    findRow [("foo", "http://a.com")] "bar" = none ∧
    GoNetURL.M.render (⟨"http", "//x.com"⟩ : GoNetURL.SimpleURL) ≠
      "HTTP://x.com" ∧
    (Create GoNetURL.M [("foo", "http://a.com")] "g" "HTTP://x.com" =
        .ok ([("foo", "http://a.com")] ++ [("g",
          GoNetURL.M.render (⟨"http", "//x.com"⟩ : GoNetURL.SimpleURL))]) ∧
      Update GoNetURL.M [("foo", "http://a.com")] "foo" "bar" "HTTP://x.com" =
        .ok ([("foo", "http://a.com")].map fun r =>
          if r.1 == "foo" then ("bar", "HTTP://x.com") else r) ∧
      findRow ([("foo", "http://a.com")] ++ [("g",
          GoNetURL.M.render (⟨"http", "//x.com"⟩ : GoNetURL.SimpleURL))])
        "g" = some ("g",
          GoNetURL.M.render (⟨"http", "//x.com"⟩ : GoNetURL.SimpleURL)) ∧
      findRow ([("foo", "http://a.com")].map fun r =>
          if r.1 == "foo" then ("bar", "HTTP://x.com") else r) "bar" =
        some ("bar", "HTTP://x.com") ∧
      GoNetURL.M.render (⟨"http", "//x.com"⟩ : GoNetURL.SimpleURL) ≠
        "HTTP://x.com") :=
  ⟨by decide, rfl, rfl, by decide, by unfold AddrsParse; decide, by decide,
    rfl, by decide,
    c9_create_canonical_update_raw GoNetURL.M [("foo", "http://a.com")]
      "g" "foo" "bar" "HTTP://x.com" _ (by decide) rfl rfl (by decide)
      (by unfold AddrsParse; decide) (by decide) rfl (by decide)⟩

end GoLink
namespace GoLink

/-- C8: starting from a table where every name is valid, names are
pairwise distinct and every address parses, each operation preserves the
invariant. `Create`, `Update` and `Delete` are run through `applyOp` (an
error leaves the table as it was); `Read` returns no table, so its state
transition is the bind that restores the input table. The `Create` clause
carries the local round-trip fact that re-parsing the re-serialized
address succeeds, which holds of Go's net/url. -/
theorem c8_invariant_preserved (M : URLModel) (db : Db) (h : Inv M db) :
    (∀ name address,
      (∀ u, M.parse address = some u → (M.parse (M.render u)).isSome = true) →
      Inv M (applyOp db (Create M db name address))) ∧
    (∀ name, Inv M (applyOp db ((Read M db name).bind fun _ => .ok db))) ∧
    (∀ oldName newName address,
      Inv M (applyOp db (Update M db oldName newName address))) ∧
    (∀ name, Inv M (applyOp db (Delete M db name))) := by
  obtain ⟨hnames, hnodup, haddrs⟩ := h
  refine ⟨?_, ?_, ?_, ?_⟩
  · intro name address hrt
    by_cases hv : ValidLinkName name = true
    · cases hp : M.parse address with
      | none =>
        rw [Create_unparseable M db name address hv hp]
        exact ⟨hnames, hnodup, haddrs⟩
      | some u =>
        cases hf : findRow db name with
        | some r0 =>
          obtain ⟨u0, hp0, hlbn⟩ :=
            linkByName_some_of_addrs M db name r0.1 r0.2 haddrs
              (by simpa using hf)
          rw [Create_exists M db name address u ⟨name, u0⟩ hv hp hlbn]
          exact ⟨hnames, hnodup, haddrs⟩
        | none =>
          rw [Create_ok M db name address u hv hp hf, applyOp_ok]
          refine ⟨?_, ?_, ?_⟩
          · intro r hr
            rcases List.mem_append.mp hr with hmem | hmem
            · exact hnames r hmem
            · simp only [List.mem_singleton] at hmem
              rw [hmem]
              exact hv
          · rw [List.map_append]
            have hnot : name ∉ db.map Prod.fst := by
              intro hmem
              obtain ⟨r, hr, hr1⟩ := List.mem_map.mp hmem
              exact ((findRow_eq_none_iff db name).mp hf r hr) hr1
            simp [List.nodup_append, hnodup, hnot]
          · intro r hr
            rcases List.mem_append.mp hr with hmem | hmem
            · exact haddrs r hmem
            · simp only [List.mem_singleton] at hmem
              rw [hmem]
              exact hrt u hp
    · have hvf : ValidLinkName name = false := by simpa using hv
      rw [Create_invalid M db name address hvf]
      exact ⟨hnames, hnodup, haddrs⟩
  · intro name
    cases hr : Read M db name with
    | error e => exact ⟨hnames, hnodup, haddrs⟩
    | ok rec => exact ⟨hnames, hnodup, haddrs⟩
  · intro oldName newName address
    by_cases hv : ValidLinkName newName = true
    · cases hp : M.parse address with
      | none =>
        rw [Update_unparseable M db oldName newName address hv hp]
        exact ⟨hnames, hnodup, haddrs⟩
      | some u =>
        cases hfo : findRow db oldName with
        | none =>
          rw [Update_notFound M db oldName newName address u hv hp hfo]
          exact ⟨hnames, hnodup, haddrs⟩
        | some r0 =>
          obtain ⟨u0, hp0, hlbno⟩ :=
            linkByName_some_of_addrs M db oldName r0.1 r0.2 haddrs
              (by simpa using hfo)
          cases hfn : findRow db newName with
          | some r1 =>
            obtain ⟨u1, hp1, hlbnn⟩ :=
              linkByName_some_of_addrs M db newName r1.1 r1.2 haddrs
                (by simpa using hfn)
            rw [Update_exists M db oldName newName address u ⟨oldName, u0⟩
              ⟨newName, u1⟩ hv hp hlbno hlbnn]
            exact ⟨hnames, hnodup, haddrs⟩
          | none =>
            rw [Update_ok M db oldName newName address u ⟨oldName, u0⟩ hv hp
              hlbno hfn, applyOp_ok]
            refine ⟨?_, ?_, ?_⟩
            · intro r hr
              obtain ⟨s, hs, hsr⟩ := List.mem_map.mp hr
              by_cases hcs : s.1 = oldName
              · rw [← hsr]
                simpa [hcs] using hv
              · rw [← hsr]
                simpa [hcs] using hnames s hs
            · rw [rename_names db oldName newName address]
              have hmm : (db.map fun r =>
                    if r.1 == oldName then newName else r.1) =
                  (db.map Prod.fst).map
                    (fun n => if n == oldName then newName else n) := by
                rw [List.map_map]
                rfl
              rw [hmm]
              apply nodup_rename _ _ _ hnodup
              intro hmem
              obtain ⟨r, hr, hr1⟩ := List.mem_map.mp hmem
              exact ((findRow_eq_none_iff db newName).mp hfn r hr) hr1
            · intro r hr
              obtain ⟨s, hs, hsr⟩ := List.mem_map.mp hr
              by_cases hcs : s.1 = oldName
              · rw [← hsr]
                simp [hcs, hp]
              · rw [← hsr]
                simpa [hcs] using haddrs s hs
    · have hvf : ValidLinkName newName = false := by simpa using hv
      rw [Update_invalid M db oldName newName address hvf]
      exact ⟨hnames, hnodup, haddrs⟩
  · intro name
    cases hf : findRow db name with
    | none =>
      rw [Delete_notFound M db name hf]
      exact ⟨hnames, hnodup, haddrs⟩
    | some r0 =>
      obtain ⟨u, hp, hlbn⟩ :=
        linkByName_some_of_addrs M db name r0.1 r0.2 haddrs (by simpa using hf)
      rw [Delete_found M db name r0.1 r0.2 u (by simpa using hf) hp, applyOp_ok]
      refine ⟨?_, ?_, ?_⟩
      · intro r hr
        exact hnames r (List.mem_of_mem_filter hr)
      · have hsub : List.Sublist
            ((db.filter fun r => !(r.1 == name)).map Prod.fst)
            (db.map Prod.fst) :=
          (List.filter_sublist db).map Prod.fst
        exact hnodup.sublist hsub
      · intro r hr
        exact haddrs r (List.mem_of_mem_filter hr)

/-- Witness for C8 over the well-formed one-row table
[("foo","http://a.com")]. -/
theorem c8_invariant_preserved_witness :
    Inv GoNetURL.M [("foo", "http://a.com")] ∧
    ((∀ name address,
      (∀ u, GoNetURL.M.parse address = some u →
        (GoNetURL.M.parse (GoNetURL.M.render u)).isSome = true) →
      Inv GoNetURL.M (applyOp [("foo", "http://a.com")]
        (Create GoNetURL.M [("foo", "http://a.com")] name address))) ∧
    (∀ name, Inv GoNetURL.M (applyOp [("foo", "http://a.com")]
      ((Read GoNetURL.M [("foo", "http://a.com")] name).bind fun _ =>
        .ok [("foo", "http://a.com")]))) ∧
    (∀ oldName newName address,
      Inv GoNetURL.M (applyOp [("foo", "http://a.com")]
        (Update GoNetURL.M [("foo", "http://a.com")]
          oldName newName address))) ∧
    (∀ name, Inv GoNetURL.M (applyOp [("foo", "http://a.com")]
      (Delete GoNetURL.M [("foo", "http://a.com")] name)))) := by
  have hInv : Inv GoNetURL.M [("foo", "http://a.com")] := by
    unfold Inv NamesValid AddrsParse
    exact ⟨by decide, by decide, by decide⟩
  exact ⟨hInv, c8_invariant_preserved GoNetURL.M _ hInv⟩

end GoLink
